import Mathlib

/-!
Verification of the happypanda download / metadata subsystem.

This file is a shallow embedding of the parts of the repository
(`happypanda/pewnet.py`, `version/hplugins.py`, `version/database/fetch.py`,
and the `backup_database` utility documented by `tests/test_utils.py`)
needed to settle the frozen claims, together with the theorems that settle
them.  External effects (the network, the OS file system, Qt signals) are
modelled explicitly: responses become lists of chunk sizes, the file system
becomes the list of existing paths, `os.rename` outcomes become boolean
oracles, and Qt signal emissions become recorded booleans.
-/

namespace Happypanda

/-- Python's `str.capitalize()`: first character upper-cased, the rest
lower-cased (ASCII behaviour, which is all the sources use). -/
def pyCapitalize (s : String) : String :=
  match s.data with
  | [] => ""
  | c :: rest => String.mk (c.toUpper :: rest.map Char.toLower)

/-- Python's `c in t` for a single character (modelled on the character
list, which computes in the kernel). -/
def pyContains (s : String) (c : Char) : Bool :=
  s.data.contains c

/-- Python's `t.lower()`. -/
def pyToLower (s : String) : String :=
  String.mk (s.data.map Char.toLower)

/-- Python's `t.replace(a, b)` for single-character arguments. -/
def pyReplaceChar (s : String) (a b : Char) : String :=
  String.mk (s.data.map (fun ch => if ch = a then b else ch))

/-- Helper for `pySplitChar`: accumulate the current piece (reversed). -/
def pySplitCharAux (c : Char) : List Char → List Char → List (List Char)
  | [], cur => [cur.reverse]
  | x :: rest, cur =>
      if x = c then cur.reverse :: pySplitCharAux c rest []
      else pySplitCharAux c rest (x :: cur)

/-- Python's `t.split(sep)` for a single-character separator. -/
def pySplitChar (c : Char) (s : String) : List String :=
  (pySplitCharAux c s.data []).map String.mk

/-- `t.lower().replace('_', ' ')`, the tag-value normalisation used by
`EHen.parse_metadata`. -/
def normalize_tag (t : String) : String :=
  pyReplaceChar (pyToLower t) '_' ' '

/-- Lookup in a Python dict modelled as an insertion-ordered association
list (first matching key wins; keys are unique by construction). -/
def assocLookup {α : Type} : List (String × α) → String → Option α
  | [], _ => none
  | (k, v) :: rest, key => if k = key then some v else assocLookup rest key

/-- Replace the value stored at `key` (first occurrence); a missing key
leaves the list unchanged. -/
def assocUpdate {α : Type} : List (String × α) → String → α → List (String × α)
  | [], _, _ => []
  | (k, v) :: rest, key, val =>
      if k = key then (k, val) :: rest else (k, v) :: assocUpdate rest key val

/-- Python dict assignment `d[key] = val`: update in place when the key is
present, else append the new key at the end (insertion order). -/
def assocSet {α : Type} (l : List (String × α)) (key : String) (val : α) :
    List (String × α) :=
  if (assocLookup l key).isSome then assocUpdate l key val else l ++ [(key, val)]

/-- The modelled file system is the list of paths that exist; creating a
file (`open(path, 'wb')`) inserts its path. -/
def fs_insert (fs : List String) (p : String) : List String :=
  if p ∈ fs then fs else p :: fs

/-- `Downloader.remove_file`: `os.remove` with every error ignored. -/
def fs_remove (fs : List String) (p : String) : List String :=
  fs.filter (fun q => q != p)

/-! ## DownloaderItem (pewnet.py lines 50-74) -/

/-- `IN_QUEUE, DOWNLOADING, FINISHED, CANCELLED = range(4)`. -/
inductive DLState
  | inQueue
  | downloading
  | finished
  | cancelled
deriving DecidableEq, Repr

/-- State of a `DownloaderItem`; the fields mirror `DownloaderItem.__init__`
(the URL, resolved file, name, byte counters and lifecycle state). -/
structure DownloaderItem where
  download_url : String
  file : String := ""
  name : String := ""
  total_size : Nat := 0
  current_size : Nat := 0
  current_state : DLState := DLState.inQueue
deriving DecidableEq, Repr

/-- `DownloaderItem.cancel`: sets the state to CANCELLED unconditionally. -/
def DownloaderItem.cancel (item : DownloaderItem) : DownloaderItem :=
  { item with current_state := DLState.cancelled }

/-! ## Downloader worker (pewnet.py lines 182-579)

A response is the list of chunk sizes that `response.iter_content(1024)`
yields.  External cancellation is a schedule `cancel_at : Option Nat`: the
item's state reads CANCELLED at the loop's `i`-th check iff the schedule
holds some `c ≤ i`. -/

/-- Whether the externally mutated `item.current_state` reads CANCELLED at
check number `i` of the chunk loop. -/
def Downloader.cancelled_at (cancel_at : Option Nat) (i : Nat) : Bool :=
  match cancel_at with
  | some c => decide (c ≤ i)
  | none => false

/-- The chunk loop of `Downloader._download_with_simple_method`: per chunk,
first check `item.current_state == item.CANCELLED` (break with the
interrupt state set), else `if data:` grow `current_size` and write. -/
def Downloader.transfer_loop (cancel_at : Option Nat) :
    List Nat → Nat → DownloaderItem → Bool → DownloaderItem × Bool
  | [], _, item, interrupt_state => (item, interrupt_state)
  | d :: rest, i, item, interrupt_state =>
      let item1 := if Downloader.cancelled_at cancel_at i then
          { item with current_state := DLState.cancelled }
        else item
      if item1.current_state = DLState.cancelled then (item1, true)
      else
        let item2 := if d ≠ 0 then
            { item1 with current_size := item1.current_size + d }
          else item1
        Downloader.transfer_loop cancel_at rest (i + 1) item2 interrupt_state

/-- `Downloader._download_with_simple_method`: `open(target_file, 'wb')`
creates the target, then the chunk loop runs; returns the item, the
interrupt state and the file system. -/
def Downloader.download_with_simple_method (target_file : String)
    (chunks : List Nat) (cancel_at : Option Nat) (item : DownloaderItem)
    (interrupt_state : Bool) (fs : List String) :
    DownloaderItem × Bool × List String :=
  let fs1 := fs_insert fs target_file
  let r := Downloader.transfer_loop cancel_at chunks 0 item interrupt_state
  (r.1, r.2, fs1)

/-- The retry loop of `Downloader._rename_file`: `while n < max_loop`,
attempt `os.rename(src_file, target_file)` (its success given by the
oracle `os_rename`), `break` on success, `n += 1` on error.  Returns the
final value of `n`; `fuel` is `max_loop - n`. -/
def Downloader.rename_file_loop (os_rename : String → String → Bool)
    (file_name file_name_part : String) (file_split : String × String) :
    Nat → Nat → Nat
  | 0, n => n
  | fuel + 1, n =>
      let attempt :=
        if file_split.2 ≠ "" then
          (file_split.1, "(" ++ toString n ++ ")" ++ file_split.2)
        else
          (file_name_part, "(" ++ toString n ++ ")" ++ file_name)
      if os_rename attempt.1 attempt.2 then n
      else Downloader.rename_file_loop os_rename file_name file_name_part
          file_split fuel (n + 1)

/-- `os.path.split`: split a path into (head, tail) at the last slash. -/
def path_split (p : String) : String × String :=
  let parts := p.splitOn "/"
  (String.intercalate "/" parts.dropLast, parts.getLastD "")

/-- `Downloader._rename_file` (pewnet.py lines 365-397): retry
`(n)<name>`-style renames for `n = 0 .. max_loop - 1`, then revert to the
part name only when `n > max_loop` — a condition the loop can never make
true, because it exits with `n ≤ max_loop`. -/
def Downloader.rename_file (os_rename : String → String → Bool)
    (filename filename_part : String) (max_loop : Nat) : String :=
  let file_name := filename
  let file_name_part := filename_part
  let file_split := path_split file_name
  let n := Downloader.rename_file_loop os_rename file_name file_name_part
      file_split max_loop 0
  if n > max_loop then file_name_part else file_name

/-- Result of one single-URL item download: the mutated item, the file
system, and whether `file_rdy` / `item_finished` fired. -/
structure SingleDLResult where
  item : DownloaderItem
  fs : List String
  emitted_file_rdy : Bool
  emitted_item_finished : Bool
deriving DecidableEq, Repr

/-- `Downloader._download_item_with_single_dl_url` (pewnet.py lines
500-539): fetch the response (`total_size` from its header), stream into
`<filename>.part`, and on an uninterrupted transfer rename the part file
(direct `os.rename` success given by `os_rename_direct`, the fallback by
the `os_rename` oracle), record the file and mark FINISHED; on interrupt
remove the part file.  The fallback branch's file-system effects are not
modelled (only its returned name is); no claim touches them. -/
def Downloader.download_item_with_single_dl_url (os_rename_direct : Bool)
    (os_rename : String → String → Bool) (total_size : Nat)
    (chunks : List Nat) (cancel_at : Option Nat) (item : DownloaderItem)
    (filename : String) (interrupt_state : Bool) (fs : List String) :
    SingleDLResult :=
  let file_name := filename
  let file_name_part := file_name ++ ".part"
  let item0 := { item with total_size := total_size }
  let dres := Downloader.download_with_simple_method file_name_part chunks
      cancel_at item0 interrupt_state fs
  let item1 := dres.1
  let interrupt := dres.2.1
  let fs1 := dres.2.2
  if interrupt = false then
    let fn_fs : String × List String :=
      if os_rename_direct then
        (file_name, fs_insert (fs_remove fs1 file_name_part) file_name)
      else
        (Downloader.rename_file os_rename file_name file_name_part 100, fs1)
    { item := { item1 with file := fn_fs.1, current_state := DLState.finished },
      fs := fn_fs.2,
      emitted_file_rdy := true,
      emitted_item_finished := true }
  else
    { item := item1,
      fs := fs_remove fs1 file_name_part,
      emitted_file_rdy := false,
      emitted_item_finished := false }

/-- Line 549 of `Downloader._downloading`: the worker sets a dequeued
item's state to DOWNLOADING unconditionally. -/
def Downloader.worker_begin (item : DownloaderItem) : DownloaderItem :=
  { item with current_state := DLState.downloading }

/-- One worker pass over a single-URL item, with the visited lifecycle
states recorded (state at dequeue, after the DOWNLOADING assignment, and
after the download returns). -/
def Downloader.worker_run_single (os_rename_direct : Bool)
    (os_rename : String → String → Bool) (total_size : Nat)
    (chunks : List Nat) (cancel_at : Option Nat) (item : DownloaderItem)
    (filename : String) (fs : List String) : SingleDLResult × List DLState :=
  let item1 := Downloader.worker_begin item
  let r := Downloader.download_item_with_single_dl_url os_rename_direct
      os_rename total_size chunks cancel_at item1 filename false fs
  (r, [item.current_state, item1.current_state, r.item.current_state])

/-- Progress rank along the documented lifecycle IN_QUEUE → DOWNLOADING →
{FINISHED | CANCELLED}. -/
def DLState.rank : DLState → Nat
  | DLState.inQueue => 0
  | DLState.downloading => 1
  | DLState.finished => 2
  | DLState.cancelled => 2

/-! ## HenItem metadata envelope (pewnet.py lines 610-639) -/

/-- JSON-like values carried in the `HenItem.metadata` envelope. -/
inductive JValue
  | s (v : String)
  | n (v : Int)
  | b (v : Bool)
  | arr (v : List JValue)
  | obj (v : List (String × JValue))

/-- The fixed field skeleton `HenItem.update_metadata` installs on its
first call (pewnet.py lines 616-633), key spelling included. -/
def HenItem.empty_skeleton_record : List (String × JValue) :=
  [("gid", JValue.n 1), ("title", JValue.s ""), ("title_jpn", JValue.s ""),
   ("category", JValue.s "Manga"), ("uploader", JValue.s ""),
   ("Posted", JValue.s ""), ("filecount", JValue.s "0"),
   ("filesize", JValue.n 0), ("expunged", JValue.b false),
   ("rating", JValue.s "0"), ("torrentcount", JValue.s "0"),
   ("tags", JValue.arr [])]

/-- `HenItem.update_metadata`: on an empty metadata dict install
`{"gmetadata": [skeleton]}`, then fetch `metadata['gmetadata'][0]`
(`KeyError` is caught and plainly returns; an `IndexError` or indexing a
non-list is an uncaught exception, modelled as `none`) and assign
`record[key] = value`. -/
def HenItem.update_metadata (self_metadata : List (String × JValue))
    (key : String) (value : JValue) : Option (List (String × JValue)) :=
  let md := if self_metadata.isEmpty then
      [("gmetadata", JValue.arr [JValue.obj HenItem.empty_skeleton_record])]
    else self_metadata
  match assocLookup md "gmetadata" with
  | none => some md
  | some (JValue.arr (JValue.obj record :: rest)) =>
      some (assocUpdate md "gmetadata"
        (JValue.arr (JValue.obj (assocSet record key value) :: rest)))
  | some (JValue.arr (_ :: _)) => none
  | some (JValue.arr []) => none
  | some _ => none

/-- Extract the first gallery record of the `gmetadata` envelope. -/
def HenItem.first_gmetadata (m : List (String × JValue)) :
    Option (List (String × JValue)) :=
  match assocLookup m "gmetadata" with
  | some (JValue.arr (JValue.obj r :: _)) => some r
  | _ => none

/-! ## CommenHen request queue (pewnet.py lines 955-1023) -/

/-- `CommenHen._QUEUE_LIMIT`. -/
def CommenHen.QUEUE_LIMIT : Nat := 25

/-- Result of `CommenHen.process_queue`: the returned value (`none` for
the `None` returns), the shared queue afterwards, and the list of entries
passed to `get_metadata` (`none` when no request was made). -/
structure ProcessQueueResult (α : Type) where
  result : Option α
  queue : List String
  requested : Option (List String)
deriving Repr

/-- `CommenHen.process_queue` (pewnet.py lines 1003-1023): an empty queue
returns `None` untouched; otherwise `get_metadata` is called on
`QUEUE[:limit]` when the queue is at or over the limit, else on the whole
queue, and the `finally` block clears the queue in every case.
`get_metadata` returning `None` makes the unpacking raise `TypeError`,
which is caught and returns `None`: it is modelled as returning `none`. -/
def CommenHen.process_queue {α : Type} (get_metadata : List String → Option α)
    (queue_limit : Nat) (queue : List String) : ProcessQueueResult α :=
  if queue.length < 1 then
    { result := none, queue := queue, requested := none }
  else
    let args := if queue.length ≥ queue_limit then queue.take queue_limit
      else queue
    { result := get_metadata args, queue := [], requested := some args }

/-! ## EHen metadata normalisation and application
(pewnet.py lines 1139-1206 and 1316-1364) -/

/-- A gallery's tag structure: an insertion-ordered mapping from namespace
to the list of tags. -/
abbrev Tags := List (String × List String)

/-- The result of the external `utils.title_parser` heuristic (its body is
outside the excerpted sources; `EHen.apply_metadata` takes it as an
argument and only reads these three fields). -/
structure TitleArtist where
  title : String
  artist : String
  language : String
deriving DecidableEq, Repr

/-- The Gallery fields `EHen.apply_metadata` touches. -/
structure Gallery where
  title : String := ""
  artist : String := ""
  language : String := ""
  type : String := ""
  pub_date : String := ""
  tags : Tags := []
  link : String := ""
  temp_url : String := ""
deriving DecidableEq, Repr

/-- A canonical metadata record as produced by `EHen.parse_metadata`:
`{title: {def, jpn?}, type, pub_date, tags, url?}`. -/
structure GMetadata where
  title_def : String := ""
  title_jpn : Option String := none
  type : String := ""
  pub_date : String := ""
  tags : Tags := []
  url : Option String := none
deriving DecidableEq, Repr

/-- The per-namespace union of `EHen.apply_metadata`'s merge branch:
`for tag in data['tags'][ns]: if not tag in g.tags[ns]: append`. -/
def EHen.union_append (glist dlist : List String) : List String :=
  dlist.foldl (fun acc tag => if tag ∈ acc then acc else acc ++ [tag]) glist

/-- The whole-mapping merge of `EHen.apply_metadata`'s merge branch
(pewnet.py lines 1193-1199): per namespace of the record, union into an
existing namespace or append the namespace at the end. -/
def EHen.merge_tags (gtags dtags : Tags) : Tags :=
  dtags.foldl (fun acc nsd =>
    match assocLookup acc nsd.1 with
    | some glist => assocUpdate acc nsd.1 (EHen.union_append glist nsd.2)
    | none => acc ++ [nsd]) gtags

/-- Lines 1142-1148 of pewnet.py: the applied title, preferring the
Japanese title when `USE_JPN_TITLE` is set (KeyError fallback to the
default title). -/
def EHen.title_of (use_jpn_title : Bool) (data : GMetadata) : String :=
  if use_jpn_title then
    (match data.title_jpn with
     | some t => t
     | none => data.title_def)
  else data.title_def

/-- Lines 1150-1156 of pewnet.py: the language derived from the
`Language` tags excluding the literal `translated` (IndexError caught to
the empty string). -/
def EHen.lang_of (data : GMetadata) : String :=
  match assocLookup data.tags "Language" with
  | some l =>
      match (l.filter (fun x => !(x == "translated"))).head? with
      | some x => pyCapitalize x
      | none => ""
  | none => ""

/-- Lines 1166-1174 of pewnet.py: the tail of the replace branch after
the artist update — language override, type, pub_date, tags wholesale
replacement, link. -/
def EHen.apply_replace_rest (lang : String) (data : GMetadata)
    (g : Gallery) : Gallery :=
  let g4 := if lang ≠ "" then { g with language := lang } else g
  let g5 := { g4 with type := data.type, pub_date := data.pub_date,
                      tags := data.tags }
  match data.url with
  | some u => { g5 with link := u }
  | none => { g5 with link := g5.temp_url }

/-- Lines 1159-1174 of pewnet.py: the whole replace branch
(`if not append`).  `data['tags']['Artist'][0]` on an empty list raises an
uncaught `IndexError`, modelled as `none`. -/
def EHen.apply_metadata_replace (lang : String) (tad : TitleArtist)
    (g : Gallery) (data : GMetadata) : Option Gallery :=
  let g1 := { g with title := tad.title }
  let g2 := if tad.artist ≠ "" then { g1 with artist := tad.artist } else g1
  let g3 := { g2 with language := pyCapitalize tad.language }
  match assocLookup data.tags "Artist" with
  | some l =>
      match l.head? with
      | some a =>
          some (EHen.apply_replace_rest lang data
            { g3 with artist := pyCapitalize a })
      | none => none
  | none => some (EHen.apply_replace_rest lang data g3)

/-- Lines 1178-1181 of pewnet.py: the merge branch's artist update (again
an uncaught `IndexError` on an empty `Artist` list, modelled as
`none`). -/
def EHen.apply_artist_merge (tad : TitleArtist) (data : GMetadata)
    (g1 : Gallery) : Option Gallery :=
  if g1.artist = "" then
    let ga := { g1 with artist := tad.artist }
    match assocLookup data.tags "Artist" with
    | some l =>
        match l.head? with
        | some a => some { ga with artist := pyCapitalize a }
        | none => none
    | none => some ga
  else some g1

/-- Lines 1182-1189 of pewnet.py: the merge branch's language, type and
pub_date updates. -/
def EHen.apply_scalar_merge (lang : String) (tad : TitleArtist)
    (data : GMetadata) (g2 : Gallery) : Gallery :=
  let g3 := if g2.language = "" then
      let gl := { g2 with language := pyCapitalize tad.language }
      if lang ≠ "" then { gl with language := lang } else gl
    else g2
  let g4 := if g3.type = "" ∨ g3.type = "Other" then
      { g3 with type := data.type }
    else g3
  if g4.pub_date = "" then { g4 with pub_date := data.pub_date } else g4

/-- Lines 1190-1199 of pewnet.py: the merge branch's tag update — adopt
the record's tags when the gallery has none, else the per-namespace
union. -/
def EHen.apply_tags_merge (data : GMetadata) (g5 : Gallery) : Gallery :=
  if g5.tags = [] then { g5 with tags := data.tags }
  else { g5 with tags := EHen.merge_tags g5.tags data.tags }

/-- Lines 1200-1205 of pewnet.py: the merge branch's link update. -/
def EHen.apply_link_merge (data : GMetadata) (g6 : Gallery) : Gallery :=
  match data.url with
  | some u => if g6.link = "" then { g6 with link := u } else g6
  | none => if g6.link = "" then { g6 with link := g6.temp_url } else g6

/-- Lines 1176-1206 of pewnet.py: the whole merge branch (`append`). -/
def EHen.apply_metadata_merge (lang : String) (tad : TitleArtist)
    (g : Gallery) (data : GMetadata) : Option Gallery :=
  let g1 := if g.title = "" then { g with title := tad.title } else g
  match EHen.apply_artist_merge tad data g1 with
  | none => none
  | some g2 =>
      some (EHen.apply_link_merge data
        (EHen.apply_tags_merge data (EHen.apply_scalar_merge lang tad data g2)))

/-- `EHen.apply_metadata` (pewnet.py lines 1139-1206).  `use_jpn_title` is
`app_constants.USE_JPN_TITLE`; `title_heuristic` is the external
`utils.title_parser`; `tad` is `title_artist_dict`. -/
def EHen.apply_metadata (use_jpn_title : Bool)
    (title_heuristic : String → TitleArtist) (g : Gallery) (data : GMetadata)
    (append : Bool) : Option Gallery :=
  let lang := EHen.lang_of data
  let tad := title_heuristic (EHen.title_of use_jpn_title data)
  if append = false then EHen.apply_metadata_replace lang tad g data
  else EHen.apply_metadata_merge lang tad g data

/-- One step of the tag-normalisation loop of `EHen.parse_metadata`
(pewnet.py lines 1349-1358): a colon splits namespace (capitalized) from
value (lower-cased, underscores to spaces); colon-less tags go to the
`default` namespace (always present, so the `none` fallback is
unreachable). -/
def EHen.parse_tag_step (tags : Tags) (t : String) : Tags :=
  if pyContains t ':' then
    let ns_tag := pySplitChar ':' t
    let nspace := pyCapitalize (ns_tag.headD "")
    let tagv := normalize_tag ((ns_tag[1]?).getD "")
    match assocLookup tags nspace with
    | some l => assocUpdate tags nspace (l ++ [tagv])
    | none => tags ++ [(nspace, [tagv])]
  else
    match assocLookup tags "default" with
    | some l => assocUpdate tags "default" (l ++ [normalize_tag t])
    | none => tags

/-- The tag normalisation of `EHen.parse_metadata`: fold the loop over the
raw tag list starting from `{'default': []}`. -/
def EHen.parse_metadata_tags (raw_tags : List String) : Tags :=
  raw_tags.foldl EHen.parse_tag_step [("default", [])]

/-- Namespace a colon-containing raw tag is filed under. -/
def EHen.tag_namespace (t : String) : String :=
  pyCapitalize ((pySplitChar ':' t).headD "")

/-- Normalised value a colon-containing raw tag contributes. -/
def EHen.tag_value (t : String) : String :=
  normalize_tag (((pySplitChar ':' t)[1]?).getD "")

/-! ## Plugin hook wiring (hplugins.py lines 28-42 and 119-133) -/

/-- Handlers are abstract tokens. -/
abbrev Handler := Nat

/-- A Hook's handler collection (`_handlers = set()`, insertion dedup). -/
abbrev HookSet := List Handler

/-- Hooks of one plugin: hook name to Hook. -/
abbrev PluginHooks := List (String × HookSet)

/-- `Plugins.hooks`: plugin id to that plugin's hooks. -/
abbrev HooksReg := List (String × PluginHooks)

/-- A pending connection as recorded by `registerHook`:
(source plugin name, target plugin id, target hook name, handler). -/
structure Connection where
  plugin_name : String
  pluginid : String
  h_name : String
  handler : Handler
deriving DecidableEq, Repr

/-- `Hook.addHandler`: add to the handler set (no duplicates). -/
def Hook.addHandler (hs : HookSet) (handler : Handler) : HookSet :=
  if handler ∈ hs then hs else hs ++ [handler]

/-- `Plugins._connectHooks` (hplugins.py lines 28-42): walk the pending
connections in order; a `KeyError` on the target plugin id or on the hook
name logs and `return`s — ending the whole pass — otherwise the handler is
attached and the walk continues. -/
def Plugins.connectHooks (hooks : HooksReg) : List Connection → HooksReg
  | [] => hooks
  | conn :: rest =>
      match assocLookup hooks conn.pluginid with
      | none => hooks
      | some p =>
          match assocLookup p conn.h_name with
          | none => hooks
          | some h =>
              Plugins.connectHooks
                (assocUpdate hooks conn.pluginid
                  (assocUpdate p conn.h_name (Hook.addHandler h conn.handler)))
                rest

/-- Whether a pending connection's target plugin id and hook name resolve
in the registry. -/
def Plugins.resolves (hooks : HooksReg) (conn : Connection) : Bool :=
  match assocLookup hooks conn.pluginid with
  | none => false
  | some p => (assocLookup p conn.h_name).isSome

/-! ## Fetch.auto_web_metadata run report (fetch.py lines 321-334) -/

/-- Observable outcome of the tail of `Fetch.auto_web_metadata`: the
`AUTO_METADATA_PROGRESS` messages, the `FINISHED` emissions, and whether
an uncaught exception escaped. -/
structure FinishReport where
  messages : List String
  finished : List Bool
  raised : Bool
deriving DecidableEq, Repr

/-- The run-ending block of `Fetch.auto_web_metadata` (fetch.py lines
321-334), taking the titles of the failed galleries.  With no failures it
reports full success and emits `FINISHED(True)`.  With failures it emits
the count message, then the per-gallery logging loop evaluates
`"An error occured with gallery: {}".e` — an attribute access on a string
literal — which raises `AttributeError` on its first iteration, so
`FINISHED.emit(False)` on line 330 is never reached. -/
def Fetch.auto_web_metadata_report (error_galleries : List String) :
    FinishReport :=
  if error_galleries.isEmpty then
    { messages := ["Successfully added all galleries to queue!"],
      finished := [true], raised := false }
  else
    { messages := ["Could not add " ++ toString error_galleries.length ++
        " galleries to queue. Check happypanda.log for more details!"],
      finished := [], raised := true }

/-! ## Database backup (version/utils.py, absent from the sources)

Modelled from the spec: the body of `backup_database` is not under `src/`
(only its unit test `tests/test_utils.py::test_run_backup_database` is).
The behaviour below follows §4.5 of the specification — split the path,
ensure a `backup` directory, try a dated candidate name and retry on
collision, reporting success — with the concrete candidate-name format and
the retry bound pinned by that test, which asserts the join calls
`"2016-10-25-<name>"`, `"2016-10-25(1)-2016-10-25-<name>"`,
`"2016-10-25(2)-2016-10-25-<name>"` and a call count bounding the
collision loop at 49 numbered attempts (after which the function still
returns success without copying). -/

/-- Outcome of a backup run: where the copy went (if any), the reported
result, and every candidate path whose existence was probed, in order. -/
structure BackupResult where
  copied_to : Option String
  success : Bool
  tried : List String
deriving DecidableEq, Repr

/-- The collision-retry loop: candidate `n` is
`<dir>/<date>(<n>)-<date governed name>`; stop at the first name that does
not exist, or give up when the fuel (49 numbered attempts) runs out. -/
def backup_try (exists_fn : String → Bool) (backup_dir date db_name : String) :
    Nat → Nat → List String → BackupResult
  | _, 0, tried =>
      { copied_to := none, success := true, tried := tried.reverse }
  | n, fuel + 1, tried =>
      let cand := backup_dir ++ "/" ++ date ++ "(" ++ toString n ++ ")-" ++
        db_name
      if exists_fn cand = false then
        { copied_to := some cand, success := true,
          tried := (cand :: tried).reverse }
      else
        backup_try exists_fn backup_dir date db_name (n + 1) fuel
          (cand :: tried)

/-- Modelled from the spec: `backup_database(db_path)` with the path
already split into directory and file name, today's date given as a
string, and `os.path.exists` given as a predicate.  Copy to
`<dir>/backup/<date>-<name>` when free, else retry per `backup_try`. -/
def backup_database (exists_fn : String → Bool) (base name date : String) :
    BackupResult :=
  let backup_dir := base ++ "/backup"
  let db_name := date ++ "-" ++ name
  let first := backup_dir ++ "/" ++ db_name
  if exists_fn first = false then
    { copied_to := some first, success := true, tried := [first] }
  else
    backup_try exists_fn backup_dir date db_name 1 49 [first]

/-! ## Association-list lemmas -/

theorem assocLookup_update_self {α : Type} (l : List (String × α))
    (k : String) (v w : α) (h : assocLookup l k = some w) :
    assocLookup (assocUpdate l k v) k = some v := by
  induction l with
  | nil => simp [assocLookup] at h
  | cons hd tl ih =>
      obtain ⟨k0, v0⟩ := hd
      by_cases hk : k0 = k
      · subst hk
        simp [assocLookup, assocUpdate]
      · simp only [assocLookup, assocUpdate, if_neg hk] at h ⊢
        exact ih h

theorem assocLookup_update_ne {α : Type} (l : List (String × α))
    (k k' : String) (v : α) (h : k' ≠ k) :
    assocLookup (assocUpdate l k v) k' = assocLookup l k' := by
  induction l with
  | nil => simp [assocLookup, assocUpdate]
  | cons hd tl ih =>
      obtain ⟨k0, v0⟩ := hd
      by_cases hk : k0 = k
      · have hne : ¬ (k0 = k') := by
          rw [hk]
          exact fun hh => h hh.symm
        simp [assocUpdate, if_pos hk, assocLookup, if_neg hne]
      · simp only [assocUpdate, if_neg hk, assocLookup]
        by_cases hk' : k0 = k'
        · simp [hk']
        · simp only [if_neg hk']
          exact ih

theorem assocUpdate_lookup_none {α : Type} (l : List (String × α))
    (k : String) (v : α) (h : assocLookup l k = none) :
    assocUpdate l k v = l := by
  induction l with
  | nil => rfl
  | cons hd tl ih =>
      obtain ⟨k0, v0⟩ := hd
      by_cases hk : k0 = k
      · simp [assocLookup, hk] at h
      · simp only [assocLookup, if_neg hk] at h
        simp [assocUpdate, if_neg hk, ih h]

theorem isSome_assocLookup_update {α : Type} (l : List (String × α))
    (k k' : String) (v : α) :
    (assocLookup (assocUpdate l k v) k').isSome = (assocLookup l k').isSome := by
  by_cases hk : k' = k
  · subst hk
    cases h : assocLookup l k' with
    | none => rw [assocUpdate_lookup_none l k' v h, h]
    | some w => simp [assocLookup_update_self l k' v w h, h]
  · rw [assocLookup_update_ne l k k' v hk]

theorem assocLookup_append_some {α : Type} (l l2 : List (String × α))
    (k : String) (w : α) (h : assocLookup l k = some w) :
    assocLookup (l ++ l2) k = some w := by
  induction l with
  | nil => simp [assocLookup] at h
  | cons hd tl ih =>
      obtain ⟨k0, v0⟩ := hd
      by_cases hk : k0 = k
      · simp_all [assocLookup]
      · simp only [assocLookup, if_neg hk, List.cons_append] at h ⊢
        exact ih h

theorem assocLookup_append_none {α : Type} (l l2 : List (String × α))
    (k : String) (h : assocLookup l k = none) :
    assocLookup (l ++ l2) k = assocLookup l2 k := by
  induction l with
  | nil => simp
  | cons hd tl ih =>
      obtain ⟨k0, v0⟩ := hd
      by_cases hk : k0 = k
      · simp [assocLookup, hk] at h
      · simp only [assocLookup, if_neg hk, List.cons_append] at h ⊢
        exact ih h

/-! ## Transfer-loop lemmas -/

theorem transfer_loop_cancelled (c : Nat) :
    ∀ (chunks : List Nat) (j : Nat) (item : DownloaderItem) (ist : Bool),
      j ≤ c → c < j + chunks.length →
      (Downloader.transfer_loop (some c) chunks j item ist).2 = true ∧
      (Downloader.transfer_loop (some c) chunks j item ist).1.current_state
        = DLState.cancelled ∧
      (Downloader.transfer_loop (some c) chunks j item ist).1.file
        = item.file := by
  intro chunks
  induction chunks with
  | nil =>
      intro j item ist hj hlt
      simp at hlt
      omega
  | cons d rest ih =>
      intro j item ist hj hlt
      by_cases hcj : c ≤ j
      · have hce : c = j := le_antisymm hcj hj
        subst hce
        simp [Downloader.transfer_loop, Downloader.cancelled_at]
      · have hdec : Downloader.cancelled_at (some c) j = false := by
          simp [Downloader.cancelled_at]
          omega
        by_cases hst : item.current_state = DLState.cancelled
        · simp [Downloader.transfer_loop, hdec, hst]
        · have hlen : (d :: rest).length = rest.length + 1 := rfl
          rw [hlen] at hlt
          have hj' : j + 1 ≤ c := by omega
          have hlt' : c < (j + 1) + rest.length := by omega
          by_cases hd : d = 0
          · have h3 := ih (j + 1) item ist hj' hlt'
            simp only [Downloader.transfer_loop, hdec, hst, hd]
            simpa [hst] using h3
          · have h3 := ih (j + 1)
              { item with current_size := item.current_size + d } ist hj' hlt'
            simp only [Downloader.transfer_loop, hdec, hst, hd]
            simpa [hst, hd] using h3

theorem transfer_loop_interrupt_cancelled (ca : Option Nat) :
    ∀ (chunks : List Nat) (j : Nat) (item : DownloaderItem),
      (Downloader.transfer_loop ca chunks j item false).2 = true →
      (Downloader.transfer_loop ca chunks j item false).1.current_state
        = DLState.cancelled := by
  intro chunks
  induction chunks with
  | nil =>
      intro j item h
      simp [Downloader.transfer_loop] at h
  | cons d rest ih =>
      intro j item h
      by_cases hdec : Downloader.cancelled_at ca j = true
      · simp [Downloader.transfer_loop, hdec]
      · have hdec' : Downloader.cancelled_at ca j = false := by
          simpa using hdec
        by_cases hst : item.current_state = DLState.cancelled
        · simp [Downloader.transfer_loop, hdec', hst]
        · by_cases hd : d = 0
          · simp only [Downloader.transfer_loop, hdec', hst, hd] at h ⊢
            simp [hst] at h ⊢
            exact ih (j + 1) _ h
          · simp only [Downloader.transfer_loop, hdec', hst, hd] at h ⊢
            simp [hst, hd] at h ⊢
            exact ih (j + 1) _ h

/-- A removed path is gone: `fs_remove` filters out every occurrence. -/
theorem not_mem_fs_remove (fs : List String) (p : String) :
    p ∉ fs_remove fs p := by
  simp [fs_remove]

/-- The rename retry loop exits with `n ≤ start + fuel`. -/
theorem rename_file_loop_le (os_rename : String → String → Bool)
    (file_name file_name_part : String) (fsp : String × String) :
    ∀ (fuel n : Nat),
      Downloader.rename_file_loop os_rename file_name file_name_part fsp
        fuel n ≤ n + fuel := by
  intro fuel
  induction fuel with
  | zero =>
      intro n
      simp [Downloader.rename_file_loop]
  | succ f ih =>
      intro n
      simp only [Downloader.rename_file_loop]
      have := ih (n + 1)
      repeat' split
      all_goals omega

/-- An uninterrupted single-URL download ends FINISHED; an interrupted one
ends CANCELLED. -/
theorem single_dl_final_state (ord : Bool) (orn : String → String → Bool)
    (total_size : Nat) (chunks : List Nat) (ca : Option Nat)
    (item : DownloaderItem) (filename : String) (fs : List String) :
    (Downloader.download_item_with_single_dl_url ord orn total_size chunks ca
      item filename false fs).item.current_state = DLState.finished ∨
    (Downloader.download_item_with_single_dl_url ord orn total_size chunks ca
      item filename false fs).item.current_state = DLState.cancelled := by
  cases hr : (Downloader.transfer_loop ca chunks 0
      { item with total_size := total_size } false).2 with
  | false =>
      left
      simp only [Downloader.download_item_with_single_dl_url,
        Downloader.download_with_simple_method, hr]
      simp
  | true =>
      right
      have hcan := transfer_loop_interrupt_cancelled ca chunks 0
        { item with total_size := total_size } hr
      simp only [Downloader.download_item_with_single_dl_url,
        Downloader.download_with_simple_method, hr]
      simpa using hcan

/-- C1: for every single-URL `DownloaderItem` whose state is set to
CANCELLED during the chunked transfer loop (the schedule fires at a check
the loop reaches), the worker removes the `<name>.part` working file,
leaves the item CANCELLED (hence never FINISHED), never records a final
file path on it, and emits no ready notification. -/
theorem c1_cancelled_transfer_cleanup (os_rename_direct : Bool)
    (os_rename : String → String → Bool) (total_size : Nat)
    (chunks : List Nat) (c : Nat) (item : DownloaderItem) (filename : String)
    (fs : List String) (hc : c < chunks.length) :
    (filename ++ ".part") ∉
      (Downloader.download_item_with_single_dl_url os_rename_direct os_rename
        total_size chunks (some c) item filename false fs).fs ∧
    (Downloader.download_item_with_single_dl_url os_rename_direct os_rename
        total_size chunks (some c) item filename false fs).item.current_state
      = DLState.cancelled ∧
    (Downloader.download_item_with_single_dl_url os_rename_direct os_rename
        total_size chunks (some c) item filename false fs).item.file
      = item.file ∧
    (Downloader.download_item_with_single_dl_url os_rename_direct os_rename
        total_size chunks (some c) item filename false fs).emitted_file_rdy
      = false := by
  obtain ⟨h2, hst, hfile⟩ := transfer_loop_cancelled c chunks 0
    { item with total_size := total_size } false (Nat.zero_le c)
    (by omega)
  simp only [Downloader.download_item_with_single_dl_url,
    Downloader.download_with_simple_method, h2]
  simp [not_mem_fs_remove, hst, hfile]

/-- C1 witness: a concrete two-chunk transfer cancelled at the first
check. -/
theorem c1_cancelled_transfer_cleanup_witness :
    (0 : Nat) < ([1024, 1024] : List Nat).length ∧
    (("g" ++ ".part") ∉
      (Downloader.download_item_with_single_dl_url true (fun _ _ => true)
        2048 [1024, 1024] (some 0) { download_url := "u" } "g" false []).fs ∧
    (Downloader.download_item_with_single_dl_url true (fun _ _ => true)
        2048 [1024, 1024] (some 0) { download_url := "u" } "g" false
        []).item.current_state = DLState.cancelled ∧
    (Downloader.download_item_with_single_dl_url true (fun _ _ => true)
        2048 [1024, 1024] (some 0) { download_url := "u" } "g" false
        []).item.file = ({ download_url := "u" } : DownloaderItem).file ∧
    (Downloader.download_item_with_single_dl_url true (fun _ _ => true)
        2048 [1024, 1024] (some 0) { download_url := "u" } "g" false
        []).emitted_file_rdy = false) := by
  refine ⟨by decide, ?_⟩
  have h := c1_cancelled_transfer_cleanup true (fun _ _ => true) 2048
    [1024, 1024] 0 { download_url := "u" } "g" [] (by decide)
  exact ⟨h.1, h.2.1, h.2.2.1, h.2.2.2⟩

/-- C4: `Downloader._rename_file` never returns the part name — the loop
exits with `n ≤ max_loop`, so the `n > max_loop` revert guard is dead
code, and with every rename attempt failing the recorded name stays the
final name instead of reverting to the part-file name as the claim (and
the function's own docstring) state. -/
theorem c4_rename_file_never_reverts (os_rename : String → String → Bool)
    (filename filename_part : String) :
    Downloader.rename_file os_rename filename filename_part 100 = filename := by
  have h := rename_file_loop_le os_rename filename filename_part
    (path_split filename) 100 0
  simp only [Downloader.rename_file]
  rw [if_neg (by omega)]

/-- C5 counterexample: `cancel()` on a queued item makes it CANCELLED, and
the worker's unconditional assignment on dequeue (pewnet.py line 549) then
sets that CANCELLED item to DOWNLOADING — a backward move the claim rules
out. -/
theorem c5_cancelled_then_downloading :
    (DownloaderItem.cancel { download_url := "u" }).current_state
      = DLState.cancelled ∧
    (Downloader.worker_begin
        (DownloaderItem.cancel { download_url := "u" })).current_state
      = DLState.downloading :=
  ⟨rfl, rfl⟩

/-- C5 amended: for an item that is not cancelled while still IN_QUEUE,
one worker pass visits states whose progress rank never decreases
(IN_QUEUE → DOWNLOADING → {FINISHED | CANCELLED}); the backward move
exists only for items cancelled while queued, which the worker resets to
DOWNLOADING. -/
theorem c5_forward_when_not_cancelled_in_queue (ord : Bool)
    (orn : String → String → Bool) (total_size : Nat) (chunks : List Nat)
    (cancel_at : Option Nat) (item : DownloaderItem) (filename : String)
    (fs : List String) (h : item.current_state = DLState.inQueue) :
    List.Chain' (fun a b => DLState.rank a ≤ DLState.rank b)
      (Downloader.worker_run_single ord orn total_size chunks cancel_at item
        filename fs).2 := by
  have hfin := single_dl_final_state ord orn total_size chunks cancel_at
    (Downloader.worker_begin item) filename fs
  simp only [Downloader.worker_begin] at hfin
  simp only [Downloader.worker_run_single, Downloader.worker_begin]
  rcases hfin with hf | hf <;>
    simp [List.chain'_cons, h, hf, DLState.rank]

/-- C5 amended witness: a concrete uncancelled run. -/
theorem c5_forward_when_not_cancelled_in_queue_witness :
    List.Chain' (fun a b => DLState.rank a ≤ DLState.rank b)
      (Downloader.worker_run_single true (fun _ _ => true) 0 [1024] none
        { download_url := "u" } "g" []).2 :=
  c5_forward_when_not_cancelled_in_queue true (fun _ _ => true) 0 [1024]
    none { download_url := "u" } "g" [] rfl

/-- Attaching a handler never changes which plugin ids / hook names
resolve. -/
theorem resolves_after_attach (hooks : HooksReg) (pid hname : String)
    (p : PluginHooks) (hp : assocLookup hooks pid = some p) (hv : HookSet)
    (conn : Connection) :
    Plugins.resolves (assocUpdate hooks pid (assocUpdate p hname hv)) conn
      = Plugins.resolves hooks conn := by
  by_cases hc : conn.pluginid = pid
  · simp only [Plugins.resolves, hc,
      assocLookup_update_self hooks pid (assocUpdate p hname hv) p hp, hp,
      isSome_assocLookup_update]
  · simp only [Plugins.resolves,
      assocLookup_update_ne hooks pid conn.pluginid
        (assocUpdate p hname hv) hc]

/-- C6 counterexample: with plugin `p1` exposing hook `h`, the pending
list [unresolvable, resolvable] leaves the registry untouched — the
resolvable second connection is never attached, because the `KeyError`
branch `return`s out of the whole pass. -/
theorem c6_unresolvable_connection_aborts_pass :
    Plugins.connectHooks [("p1", [("h", [])])]
        [⟨"a", "missing", "h", 0⟩, ⟨"b", "p1", "h", 1⟩]
      = [("p1", [("h", [])])] ∧
    Plugins.resolves [("p1", [("h", [])])] ⟨"b", "p1", "h", 1⟩ = true :=
  ⟨rfl, rfl⟩

/-- C6 amended: the wiring pass attaches connections in order and stops at
the first connection whose target plugin id or hook name does not resolve,
leaving it and every later pending connection unattached. -/
theorem c6_pass_stops_at_first_unresolvable (good : List Connection)
    (bad : Connection) (rest : List Connection) :
    ∀ (hooks : HooksReg),
      (∀ conn ∈ good, Plugins.resolves hooks conn = true) →
      Plugins.resolves hooks bad = false →
      Plugins.connectHooks hooks (good ++ bad :: rest)
        = Plugins.connectHooks hooks good := by
  induction good with
  | nil =>
      intro hooks _ hbad
      simp only [List.nil_append]
      cases hp : assocLookup hooks bad.pluginid with
      | none => simp [Plugins.connectHooks, hp]
      | some p =>
          simp only [Plugins.resolves, hp] at hbad
          cases hh : assocLookup p bad.h_name with
          | none => simp [Plugins.connectHooks, hp, hh]
          | some h =>
              rw [hh] at hbad
              simp at hbad
  | cons c good' ih =>
      intro hooks hgood hbad
      have hc := hgood c (List.mem_cons_self c good')
      cases hp : assocLookup hooks c.pluginid with
      | none => simp [Plugins.resolves, hp] at hc
      | some p =>
          simp only [Plugins.resolves, hp] at hc
          cases hh : assocLookup p c.h_name with
          | none =>
              rw [hh] at hc
              simp at hc
          | some h =>
              have hstep := fun conn => resolves_after_attach hooks
                c.pluginid c.h_name p hp (Hook.addHandler h c.handler) conn
              simp only [List.cons_append, Plugins.connectHooks, hp, hh]
              exact ih _
                (fun conn hconn => by
                  rw [hstep conn]
                  exact hgood conn (List.mem_cons_of_mem c hconn))
                (by
                  rw [hstep bad]
                  exact hbad)

/-- C6 amended witness: a resolvable connection followed by an
unresolvable one; the pass equals the pass over the resolvable prefix. -/
theorem c6_pass_stops_at_first_unresolvable_witness :
    Plugins.connectHooks [("p1", [("h", [])])]
        ([⟨"x", "p1", "h", 7⟩] ++ ⟨"y", "missing", "h", 8⟩ :: [])
      = Plugins.connectHooks [("p1", [("h", [])])] [⟨"x", "p1", "h", 7⟩] :=
  c6_pass_stops_at_first_unresolvable [⟨"x", "p1", "h", 7⟩]
    ⟨"y", "missing", "h", 8⟩ [] [("p1", [("h", [])])]
    (by decide) (by decide)

/-- The backup retry loop always reports success and only ever copies to a
candidate whose existence probe came back negative. -/
theorem backup_try_success_no_overwrite (exists_fn : String → Bool)
    (backup_dir date db_name : String) :
    ∀ (fuel n : Nat) (tried : List String),
      (backup_try exists_fn backup_dir date db_name n fuel tried).success
        = true ∧
      (∀ t, (backup_try exists_fn backup_dir date db_name n fuel
          tried).copied_to = some t → exists_fn t = false) := by
  intro fuel
  induction fuel with
  | zero =>
      intro n tried
      constructor
      · rfl
      · intro t ht
        simp [backup_try] at ht
  | succ f ih =>
      intro n tried
      by_cases hex : exists_fn (backup_dir ++ "/" ++ date ++ "(" ++
          toString n ++ ")-" ++ db_name) = false
      · constructor
        · simp [backup_try, hex]
        · intro t ht
          simp only [backup_try, hex, if_pos] at ht
          simp only [Option.some.injEq] at ht
          exact ht ▸ hex
      · have hrec := ih (n + 1) ((backup_dir ++ "/" ++ date ++ "(" ++
          toString n ++ ")-" ++ db_name) :: tried)
        simpa [backup_try, hex] using hrec

/-- C7 counterexample: when the dated candidate exists, the next candidate
name is `<date>(1)-<date>-<name>` (as the repository's unit test asserts),
not the `(1)-<date>-<name>` the claim states. -/
theorem c7_collision_name_differs_from_claim :
    (backup_database (fun s => s == "/data/backup/2016-10-25-mydb.db")
        "/data" "mydb.db" "2016-10-25").copied_to
      = some "/data/backup/2016-10-25(1)-2016-10-25-mydb.db" ∧
    (backup_database (fun s => s == "/data/backup/2016-10-25-mydb.db")
        "/data" "mydb.db" "2016-10-25").copied_to
      ≠ some "/data/backup/(1)-2016-10-25-mydb.db" :=
  ⟨rfl, by decide⟩

/-- C7 amended: the backup reports success for every existence oracle, and
whenever it copies, the target name did not previously exist — so no
existing backup is ever overwritten (though after 49 failed numbered
attempts it gives up without copying, still reporting success). -/
theorem c7_backup_success_no_overwrite (exists_fn : String → Bool)
    (base name date : String) :
    (backup_database exists_fn base name date).success = true ∧
    (∀ t, (backup_database exists_fn base name date).copied_to = some t →
      exists_fn t = false) := by
  simp only [backup_database]
  split
  · next h1 =>
      constructor
      · rfl
      · intro t ht
        simp only [Option.some.injEq] at ht
        exact ht ▸ h1
  · next h1 =>
      exact backup_try_success_no_overwrite exists_fn (base ++ "/backup")
        date (date ++ "-" ++ name) 49 1
        [base ++ "/backup" ++ "/" ++ (date ++ "-" ++ name)]

/-- C7 amended witness: an empty backup directory; the copy goes to the
dated name, which did not exist. -/
theorem c7_backup_success_no_overwrite_witness :
    (backup_database (fun _ => false) "/data" "mydb.db"
      "2016-10-25").success = true ∧
    (fun _ : String => false) "/data/backup/2016-10-25-mydb.db" = false :=
  ⟨(c7_backup_success_no_overwrite (fun _ => false) "/data" "mydb.db"
      "2016-10-25").1,
   (c7_backup_success_no_overwrite (fun _ => false) "/data" "mydb.db"
      "2016-10-25").2 "/data/backup/2016-10-25-mydb.db" rfl⟩

/-- C8: on a run with one failed gallery the tail of `auto_web_metadata`
emits the count message but raises `AttributeError` (from the malformed
`"...".e` format call) before reaching `FINISHED.emit(False)`, so no falsy
FINISHED result is ever signalled; a failure-free run emits the success
message and `FINISHED(True)`. -/
theorem c8_partial_failure_raises_before_finished :
    Fetch.auto_web_metadata_report ["g1"]
      = { messages := ["Could not add 1 galleries to queue. Check happypanda.log for more details!"],
          finished := [], raised := true } ∧
    Fetch.auto_web_metadata_report []
      = { messages := ["Successfully added all galleries to queue!"],
          finished := [true], raised := false } :=
  ⟨rfl, rfl⟩

/-- C9: a non-empty queue is flushed through `get_metadata` on exactly its
first 25 entries (at most the class queue limit), every further entry is
discarded, and the shared queue ends empty even when `get_metadata`
fails; an empty queue short-circuits with no request and no result. -/
theorem c9_process_queue_spec {α : Type} (get_metadata : List String → Option α)
    (q : List String) :
    (q ≠ [] →
      (CommenHen.process_queue get_metadata CommenHen.QUEUE_LIMIT q).queue
        = [] ∧
      (CommenHen.process_queue get_metadata CommenHen.QUEUE_LIMIT q).requested
        = some (q.take 25) ∧
      (q.take 25).length ≤ 25 ∧
      (CommenHen.process_queue get_metadata CommenHen.QUEUE_LIMIT q).result
        = get_metadata (q.take 25)) ∧
    (q = [] →
      CommenHen.process_queue get_metadata CommenHen.QUEUE_LIMIT q
        = { result := none, queue := q, requested := none }) := by
  constructor
  · intro hne
    have hlen : 0 < q.length := List.length_pos.mpr hne
    have hnot : ¬ (q.length < 1) := by omega
    have hargs : (if q.length ≥ CommenHen.QUEUE_LIMIT
        then q.take CommenHen.QUEUE_LIMIT else q) = q.take 25 := by
      by_cases hq : q.length ≥ CommenHen.QUEUE_LIMIT
      · rw [if_pos hq]
        rfl
      · rw [if_neg hq]
        have hle : q.length ≤ 25 := by
          simp only [CommenHen.QUEUE_LIMIT] at hq
          omega
        exact (List.take_of_length_le hle).symm
    simp only [CommenHen.process_queue, if_neg hnot, hargs]
    refine ⟨?_, ?_, ?_, ?_⟩ <;> first
      | trivial
      | exact List.length_take_le 25 q
  · intro he
    subst he
    rfl

/-- C9 witness: a 27-entry queue. -/
theorem c9_process_queue_spec_witness :
    (CommenHen.process_queue (fun l => some l.length) CommenHen.QUEUE_LIMIT
      (List.replicate 27 "u")).queue = [] ∧
    (CommenHen.process_queue (fun l => some l.length) CommenHen.QUEUE_LIMIT
      (List.replicate 27 "u")).requested
        = some ((List.replicate 27 "u").take 25) ∧
    ((List.replicate 27 "u").take 25).length ≤ 25 ∧
    (CommenHen.process_queue (fun l => some l.length) CommenHen.QUEUE_LIMIT
      (List.replicate 27 "u")).result
        = some ((List.replicate 27 "u").take 25).length :=
  (c9_process_queue_spec (fun l => some l.length)
    (List.replicate 27 "u")).1 (by decide)

/-- C10 counterexample: the record installed by the first
`update_metadata` call on empty metadata has no `posted` field at all —
the skeleton spells the key `Posted`. -/
theorem c10_skeleton_lacks_posted_field :
    ((HenItem.update_metadata [] "gid" (JValue.n 2)).bind
        HenItem.first_gmetadata).isSome = true ∧
    ((HenItem.update_metadata [] "gid" (JValue.n 2)).bind
        HenItem.first_gmetadata).bind (fun r => assocLookup r "posted")
      = none ∧
    ((HenItem.update_metadata [] "gid" (JValue.n 2)).bind
        HenItem.first_gmetadata).bind (fun r => assocLookup r "Posted")
      = some (JValue.s "") :=
  ⟨rfl, rfl, rfl⟩

/-- C10 amended: the first `update_metadata` call on empty metadata
installs `{"gmetadata": [skeleton]}` and assigns the given key–value pair
into that record; the skeleton carries exactly the fields gid 1, title "",
title_jpn "", category "Manga", uploader "", `Posted` "" (capital P — no
lower-case `posted` key), filecount "0", filesize 0, expunged false,
rating "0", torrentcount "0", tags []. -/
theorem c10_first_update_installs_skeleton (key : String) (value : JValue) :
    HenItem.update_metadata [] key value
      = some [("gmetadata",
          JValue.arr [JValue.obj
            (assocSet HenItem.empty_skeleton_record key value)])] ∧
    HenItem.empty_skeleton_record
      = [("gid", JValue.n 1), ("title", JValue.s ""),
         ("title_jpn", JValue.s ""), ("category", JValue.s "Manga"),
         ("uploader", JValue.s ""), ("Posted", JValue.s ""),
         ("filecount", JValue.s "0"), ("filesize", JValue.n 0),
         ("expunged", JValue.b false), ("rating", JValue.s "0"),
         ("torrentcount", JValue.s "0"), ("tags", JValue.arr [])] :=
  ⟨rfl, rfl⟩

/-! ## Tag-normalisation lemmas for `EHen.parse_metadata` -/

theorem parse_tag_step_colon_some {acc : Tags} {t : String} {lk : List String}
    (hc : pyContains t ':' = true)
    (hk : assocLookup acc (pyCapitalize ((pySplitChar ':' t).headD "")) = some lk) :
    EHen.parse_tag_step acc t
      = assocUpdate acc (pyCapitalize ((pySplitChar ':' t).headD ""))
          (lk ++ [normalize_tag (((pySplitChar ':' t)[1]?).getD "")]) := by
  simp only [EHen.parse_tag_step]
  rw [if_pos hc, hk]

theorem parse_tag_step_colon_none {acc : Tags} {t : String}
    (hc : pyContains t ':' = true)
    (hk : assocLookup acc (pyCapitalize ((pySplitChar ':' t).headD "")) = none) :
    EHen.parse_tag_step acc t
      = acc ++ [(pyCapitalize ((pySplitChar ':' t).headD ""),
          [normalize_tag (((pySplitChar ':' t)[1]?).getD "")])] := by
  simp only [EHen.parse_tag_step]
  rw [if_pos hc, hk]

theorem parse_tag_step_nocolon_some {acc : Tags} {t : String} {lk : List String}
    (hc : pyContains t ':' = false)
    (hk : assocLookup acc "default" = some lk) :
    EHen.parse_tag_step acc t
      = assocUpdate acc "default" (lk ++ [normalize_tag t]) := by
  simp only [EHen.parse_tag_step]
  rw [if_neg (by simp [hc]), hk]

theorem parse_tag_step_nocolon_none {acc : Tags} {t : String}
    (hc : pyContains t ':' = false)
    (hk : assocLookup acc "default" = none) :
    EHen.parse_tag_step acc t = acc := by
  simp only [EHen.parse_tag_step]
  rw [if_neg (by simp [hc]), hk]

/-- One normalisation step never loses a tag already filed in any
namespace. -/
theorem parse_step_preserves (acc : Tags) (t : String) (ns : String)
    (l : List String) (v : String) (hl : assocLookup acc ns = some l)
    (hv : v ∈ l) :
    ∃ l2, assocLookup (EHen.parse_tag_step acc t) ns = some l2 ∧ v ∈ l2 := by
  by_cases hc : pyContains t ':' = true
  · cases hk : assocLookup acc (pyCapitalize ((pySplitChar ':' t).headD "")) with
    | some lk =>
        rw [parse_tag_step_colon_some hc hk]
        by_cases hns : ns = pyCapitalize ((pySplitChar ':' t).headD "")
        · subst hns
          rw [hl] at hk
          injection hk with hk2
          subst hk2
          exact ⟨_, assocLookup_update_self acc _ _ l hl,
            List.mem_append_left _ hv⟩
        · rw [assocLookup_update_ne acc _ ns _ hns]
          exact ⟨l, hl, hv⟩
    | none =>
        rw [parse_tag_step_colon_none hc hk]
        exact ⟨l, assocLookup_append_some acc _ ns l hl, hv⟩
  · have hc' : pyContains t ':' = false := by simpa using hc
    cases hk : assocLookup acc "default" with
    | some lk =>
        rw [parse_tag_step_nocolon_some hc' hk]
        by_cases hns : ns = "default"
        · subst hns
          rw [hl] at hk
          injection hk with hk2
          subst hk2
          exact ⟨_, assocLookup_update_self acc _ _ l hl,
            List.mem_append_left _ hv⟩
        · rw [assocLookup_update_ne acc _ ns _ hns]
          exact ⟨l, hl, hv⟩
    | none =>
        rw [parse_tag_step_nocolon_none hc' hk]
        exact ⟨l, hl, hv⟩

/-- Folding the normalisation over further raw tags never loses a filed
tag. -/
theorem parse_fold_preserves (raw : List String) :
    ∀ (acc : Tags) (ns : String) (l : List String) (v : String),
      assocLookup acc ns = some l → v ∈ l →
      ∃ l2, assocLookup (raw.foldl EHen.parse_tag_step acc) ns = some l2 ∧
        v ∈ l2 := by
  induction raw with
  | nil =>
      intro acc ns l v hl hv
      exact ⟨l, hl, hv⟩
  | cons t rest ih =>
      intro acc ns l v hl hv
      obtain ⟨l2, hl2, hv2⟩ := parse_step_preserves acc t ns l v hl hv
      simpa using ih (EHen.parse_tag_step acc t) ns l2 v hl2 hv2

/-- Processing a colon-containing raw tag files its normalised value under
its capitalized namespace. -/
theorem parse_step_adds_colon (acc : Tags) (t : String)
    (hc : pyContains t ':' = true) :
    ∃ l2, assocLookup (EHen.parse_tag_step acc t)
        (pyCapitalize ((pySplitChar ':' t).headD "")) = some l2 ∧
      normalize_tag (((pySplitChar ':' t)[1]?).getD "") ∈ l2 := by
  cases hk : assocLookup acc (pyCapitalize ((pySplitChar ':' t).headD "")) with
  | some lk =>
      rw [parse_tag_step_colon_some hc hk]
      exact ⟨_, assocLookup_update_self acc _ _ lk hk, by simp⟩
  | none =>
      rw [parse_tag_step_colon_none hc hk]
      rw [assocLookup_append_none acc _ _ hk]
      exact ⟨[normalize_tag (((pySplitChar ':' t)[1]?).getD "")],
        by simp [assocLookup], by simp⟩

/-- Processing a colon-less raw tag appends its normalised value to the
`default` namespace. -/
theorem parse_step_adds_default (acc : Tags) (t : String) (lk : List String)
    (hc : pyContains t ':' = false)
    (hk : assocLookup acc "default" = some lk) :
    ∃ l2, assocLookup (EHen.parse_tag_step acc t) "default" = some l2 ∧
      normalize_tag t ∈ l2 := by
  rw [parse_tag_step_nocolon_some hc hk]
  exact ⟨_, assocLookup_update_self acc _ _ lk hk, by simp⟩

/-- The `default` namespace, once present, stays present. -/
theorem parse_step_default_isSome (acc : Tags) (t : String)
    (h : (assocLookup acc "default").isSome = true) :
    (assocLookup (EHen.parse_tag_step acc t) "default").isSome = true := by
  by_cases hc : pyContains t ':' = true
  · cases hk : assocLookup acc (pyCapitalize ((pySplitChar ':' t).headD "")) with
    | some lk =>
        rw [parse_tag_step_colon_some hc hk, isSome_assocLookup_update]
        exact h
    | none =>
        rw [parse_tag_step_colon_none hc hk]
        cases hd : assocLookup acc "default" with
        | none =>
            rw [hd] at h
            simp at h
        | some ld =>
            rw [assocLookup_append_some acc _ _ ld hd]
            rfl
  · have hc' : pyContains t ':' = false := by simpa using hc
    cases hd : assocLookup acc "default" with
    | none =>
        rw [hd] at h
        simp at h
    | some ld =>
        rw [parse_tag_step_nocolon_some hc' hd, isSome_assocLookup_update, hd]
        rfl

theorem parse_fold_mem_colon (raw : List String) :
    ∀ (acc : Tags) (t : String), t ∈ raw → pyContains t ':' = true →
      ∃ l2, assocLookup (raw.foldl EHen.parse_tag_step acc)
          (pyCapitalize ((pySplitChar ':' t).headD "")) = some l2 ∧
        normalize_tag (((pySplitChar ':' t)[1]?).getD "") ∈ l2 := by
  induction raw with
  | nil =>
      intro acc t ht
      simp at ht
  | cons hd rest ih =>
      intro acc t ht hc
      rcases List.mem_cons.mp ht with he | hm
      · subst he
        obtain ⟨l2, hl2, hv2⟩ := parse_step_adds_colon acc t hc
        simpa using parse_fold_preserves rest (EHen.parse_tag_step acc t)
          _ l2 _ hl2 hv2
      · simpa using ih (EHen.parse_tag_step acc hd) t hm hc

theorem parse_fold_mem_default (raw : List String) :
    ∀ (acc : Tags), (assocLookup acc "default").isSome = true →
      ∀ (t : String), t ∈ raw → pyContains t ':' = false →
      ∃ l2, assocLookup (raw.foldl EHen.parse_tag_step acc) "default"
          = some l2 ∧ normalize_tag t ∈ l2 := by
  induction raw with
  | nil =>
      intro acc _ t ht
      simp at ht
  | cons hd rest ih =>
      intro acc hacc t ht hc
      rcases List.mem_cons.mp ht with he | hm
      · subst he
        cases hk : assocLookup acc "default" with
        | none =>
            rw [hk] at hacc
            simp at hacc
        | some lk =>
            obtain ⟨l2, hl2, hv2⟩ := parse_step_adds_default acc t lk hc hk
            simpa using parse_fold_preserves rest (EHen.parse_tag_step acc t)
              _ l2 _ hl2 hv2
      · simpa using ih (EHen.parse_tag_step acc hd)
          (parse_step_default_isSome acc hd hacc) t hm hc

/-- C3: `EHen.parse_metadata` files every colon-containing raw tag's
normalised value (namespace capitalized, value lower-cased with
underscores turned to spaces) under its namespace, files every colon-less
tag's normalised value under the reserved `default` namespace, and in
particular normalizes `["artist:jane doe", "translated", "full_color"]` to
the mapping `{"Artist": ["jane doe"], "default": ["translated", "full
color"]}` (with `default` and `Artist` its only namespaces). -/
theorem c3_parse_metadata_tag_normalization :
    (∀ (raw : List String) (t : String), t ∈ raw → pyContains t ':' = true →
      ∃ l, assocLookup (EHen.parse_metadata_tags raw)
          (pyCapitalize ((pySplitChar ':' t).headD "")) = some l ∧
        normalize_tag (((pySplitChar ':' t)[1]?).getD "") ∈ l) ∧
    (∀ (raw : List String) (t : String), t ∈ raw → pyContains t ':' = false →
      ∃ l, assocLookup (EHen.parse_metadata_tags raw) "default" = some l ∧
        normalize_tag t ∈ l) ∧
    (assocLookup (EHen.parse_metadata_tags
        ["artist:jane doe", "translated", "full_color"]) "Artist"
      = some ["jane doe"] ∧
     assocLookup (EHen.parse_metadata_tags
        ["artist:jane doe", "translated", "full_color"]) "default"
      = some ["translated", "full color"] ∧
     (EHen.parse_metadata_tags
        ["artist:jane doe", "translated", "full_color"]).map Prod.fst
      = ["default", "Artist"]) := by
  refine ⟨?_, ?_, ?_, ?_, ?_⟩
  · intro raw t ht hc
    exact parse_fold_mem_colon raw [("default", [])] t ht hc
  · intro raw t ht hc
    exact parse_fold_mem_default raw [("default", [])] rfl t ht hc
  · rfl
  · rfl
  · rfl

/-- C3 witness: the general clauses applied to the claim's raw tag list. -/
theorem c3_parse_metadata_tag_normalization_witness :
    ∃ l, assocLookup (EHen.parse_metadata_tags
        ["artist:jane doe", "translated", "full_color"])
        (pyCapitalize ((pySplitChar ':' "artist:jane doe").headD ""))
      = some l ∧
      normalize_tag (((pySplitChar ':' "artist:jane doe")[1]?).getD "") ∈ l :=
  c3_parse_metadata_tag_normalization.1
    ["artist:jane doe", "translated", "full_color"] "artist:jane doe"
    (by decide) (by decide)

/-- Each piece of the replace branch after the artist update leaves the
tag mapping equal to the record's tags. -/
theorem apply_replace_rest_tags (lang : String) (data : GMetadata)
    (g : Gallery) :
    (EHen.apply_replace_rest lang data g).tags = data.tags := by
  simp only [EHen.apply_replace_rest]
  cases hu : data.url <;> split_ifs <;> rfl

/-- The replace branch, when it does not raise, replaces the whole tag
mapping with the record's tags. -/
theorem apply_metadata_replace_tags (lang : String) (tad : TitleArtist)
    (g : Gallery) (data : GMetadata) (g2 : Gallery)
    (h : EHen.apply_metadata_replace lang tad g data = some g2) :
    g2.tags = data.tags := by
  simp only [EHen.apply_metadata_replace] at h
  split at h
  · split at h
    · injection h with h2
      rw [← h2]
      exact apply_replace_rest_tags lang data _
    · simp at h
  · injection h with h2
    rw [← h2]
    exact apply_replace_rest_tags lang data _

/-- The replace branch returns a gallery whenever the record's `Artist`
tag list is non-empty. -/
theorem apply_metadata_replace_isSome (lang : String) (tad : TitleArtist)
    (g : Gallery) (data : GMetadata) (a : String) (l2 : List String)
    (hA : assocLookup data.tags "Artist" = some (a :: l2)) :
    ∃ g2, EHen.apply_metadata_replace lang tad g data = some g2 := by
  simp only [EHen.apply_metadata_replace, hA, List.head?]
  exact ⟨_, rfl⟩

/-- The merge branch's artist step never touches the tag mapping. -/
theorem apply_artist_merge_tags (tad : TitleArtist) (data : GMetadata)
    (g1 g2 : Gallery) (h : EHen.apply_artist_merge tad data g1 = some g2) :
    g2.tags = g1.tags := by
  simp only [EHen.apply_artist_merge] at h
  split at h
  · split at h
    · split at h
      · injection h with h2
        rw [← h2]
      · simp at h
    · injection h with h2
      rw [← h2]
  · injection h with h2
    rw [← h2]

/-- The merge branch's artist step returns a gallery whenever the
record's `Artist` tag list is non-empty. -/
theorem apply_artist_merge_isSome (tad : TitleArtist) (data : GMetadata)
    (g1 : Gallery) (a : String) (l2 : List String)
    (hA : assocLookup data.tags "Artist" = some (a :: l2)) :
    ∃ g2, EHen.apply_artist_merge tad data g1 = some g2 := by
  simp only [EHen.apply_artist_merge, hA, List.head?]
  split_ifs <;> exact ⟨_, rfl⟩

/-- The merge branch's scalar updates never touch the tag mapping. -/
theorem apply_scalar_merge_tags (lang : String) (tad : TitleArtist)
    (data : GMetadata) (g2 : Gallery) :
    (EHen.apply_scalar_merge lang tad data g2).tags = g2.tags := by
  simp only [EHen.apply_scalar_merge]
  split_ifs <;> rfl

/-- The merge branch's tag step adopts the record's tags on an empty
gallery mapping and unions per namespace otherwise. -/
theorem apply_tags_merge_tags (data : GMetadata) (g5 : Gallery) :
    (EHen.apply_tags_merge data g5).tags
      = if g5.tags = [] then data.tags
        else EHen.merge_tags g5.tags data.tags := by
  simp only [EHen.apply_tags_merge]
  split_ifs with h <;> simp [h]

/-- The merge branch's link step never touches the tag mapping. -/
theorem apply_link_merge_tags (data : GMetadata) (g6 : Gallery) :
    (EHen.apply_link_merge data g6).tags = g6.tags := by
  simp only [EHen.apply_link_merge]
  cases hu : data.url <;> split_ifs <;> rfl

/-- The merge branch returns a gallery whenever the record's `Artist` tag
list is non-empty. -/
theorem apply_metadata_merge_isSome (lang : String) (tad : TitleArtist)
    (g : Gallery) (data : GMetadata) (a : String) (l2 : List String)
    (hA : assocLookup data.tags "Artist" = some (a :: l2)) :
    ∃ g1, EHen.apply_metadata_merge lang tad g data = some g1 := by
  simp only [EHen.apply_metadata_merge]
  obtain ⟨g2, hg2⟩ := apply_artist_merge_isSome tad data
    (if g.title = "" then { g with title := tad.title } else g) a l2 hA
  rw [hg2]
  exact ⟨_, rfl⟩

/-- When the merge branch returns a gallery, its tags are the record's
tags if the gallery had none, else the per-namespace union. -/
theorem apply_metadata_merge_tags (lang : String) (tad : TitleArtist)
    (g : Gallery) (data : GMetadata) (g1 : Gallery)
    (h : EHen.apply_metadata_merge lang tad g data = some g1) :
    g1.tags = if g.tags = [] then data.tags
      else EHen.merge_tags g.tags data.tags := by
  simp only [EHen.apply_metadata_merge] at h
  split at h
  · simp at h
  · next g2 heq =>
      injection h with h2
      rw [← h2, apply_link_merge_tags, apply_tags_merge_tags,
        apply_scalar_merge_tags]
      have hg2 := apply_artist_merge_tags tad data _ g2 heq
      have htitle : (if g.title = "" then { g with title := tad.title }
          else g).tags = g.tags := by
        split_ifs <;> rfl
      rw [hg2, htitle]

/-- C2: applying a canonical record whose tags are `{"Artist": ["b"]}` to
a gallery already holding `{"Artist": ["a"]}` yields `{"Artist": ["a",
"b"]}` in merge mode (append) and `{"Artist": ["b"]}` in replace mode,
for every gallery, record, title heuristic and title-language setting. -/
theorem c2_apply_metadata_merge_vs_replace (use_jpn_title : Bool)
    (title_heuristic : String → TitleArtist) (g : Gallery) (data : GMetadata)
    (hg : g.tags = [("Artist", ["a"])])
    (hd : data.tags = [("Artist", ["b"])]) :
    (∃ g1, EHen.apply_metadata use_jpn_title title_heuristic g data true
        = some g1 ∧ g1.tags = [("Artist", ["a", "b"])]) ∧
    (∃ g2, EHen.apply_metadata use_jpn_title title_heuristic g data false
        = some g2 ∧ g2.tags = [("Artist", ["b"])]) := by
  have hA : assocLookup data.tags "Artist" = some ["b"] := by
    rw [hd]
    rfl
  have hmerge : EHen.merge_tags [("Artist", ["a"])] [("Artist", ["b"])]
      = [("Artist", ["a", "b"])] := by decide
  constructor
  · obtain ⟨g1, hg1⟩ := apply_metadata_merge_isSome (EHen.lang_of data)
      (title_heuristic (EHen.title_of use_jpn_title data)) g data "b" [] hA
    refine ⟨g1, hg1, ?_⟩
    have ht := apply_metadata_merge_tags (EHen.lang_of data)
      (title_heuristic (EHen.title_of use_jpn_title data)) g data g1 hg1
    rw [hg, hd, hmerge] at ht
    simpa using ht
  · obtain ⟨g2, hg2⟩ := apply_metadata_replace_isSome (EHen.lang_of data)
      (title_heuristic (EHen.title_of use_jpn_title data)) g data "b" [] hA
    refine ⟨g2, hg2, ?_⟩
    have ht := apply_metadata_replace_tags (EHen.lang_of data)
      (title_heuristic (EHen.title_of use_jpn_title data)) g data g2 hg2
    rw [hd] at ht
    exact ht

/-- C2 witness: a concrete gallery and record with those exact tag
mappings. -/
theorem c2_apply_metadata_merge_vs_replace_witness :
    (∃ g1, EHen.apply_metadata false (fun _ => ⟨"t", "ar", "english"⟩)
        { tags := [("Artist", ["a"])] } { tags := [("Artist", ["b"])] } true
        = some g1 ∧ g1.tags = [("Artist", ["a", "b"])]) ∧
    (∃ g2, EHen.apply_metadata false (fun _ => ⟨"t", "ar", "english"⟩)
        { tags := [("Artist", ["a"])] } { tags := [("Artist", ["b"])] } false
        = some g2 ∧ g2.tags = [("Artist", ["b"])]) :=
  c2_apply_metadata_merge_vs_replace false (fun _ => ⟨"t", "ar", "english"⟩)
    { tags := [("Artist", ["a"])] } { tags := [("Artist", ["b"])] } rfl rfl

end Happypanda
